import Mathlib

/-!
Verification of the Holter signal-processing core (`repose.py`).

This file gives a shallow embedding of the algorithmic core of the
Holter-processing utility: the heart-rate estimator's beat detection and
windowing (`calculate_hr`), the differentiation step, the respiratory-rate
estimator's windowing (`calculate_rr`), the spectrum analyzer (`spectrum`),
the band-pass filter interface (`butter_bandpass` / `lfilter`), and the
body-position classifier (`body_pos_and_angles`).

Conventions of the embedding:
* numeric arrays of the exact (window/beat) computations are `List ℚ`;
  the transcendental parts (FFT, arcsin/arccos based classification) are
  modelled over `ℝ`/`ℂ`;
* a floating-point NaN produced by a degenerate computation (mean of an
  empty array, undefined angle) is modelled as `Option.none`;
* Python's `range(0, stop, step)` (with `step > 0`) is the list of
  multiples of `step` below `stop`.
-/

namespace Repose

/-- Python `range(0, stop, step)` for a positive `step`: the multiples of
`step` strictly below `stop`, in increasing order.  A non-positive Python
`stop` gives the empty list, matching truncated `ℕ` subtraction at the
call sites. -/
def pyRange (stop step : ℕ) : List ℕ :=
  (List.range stop).filter (fun i => i % step == 0)

/-- Model of `np.diff`: consecutive differences, one element shorter than the input. -/
def npDiff (xs : List ℚ) : List ℚ :=
  (List.range (xs.length - 1)).map (fun k => xs.getD (k + 1) 0 - xs.getD k 0)

/-- Model of `np.mean`: the arithmetic mean.  `np.mean` of an empty array is NaN
(with a runtime warning, not an exception); the NaN is modelled as `none`. -/
def npMean (xs : List ℚ) : Option ℚ :=
  if xs.length = 0 then none else some (xs.sum / (xs.length : ℚ))

/-- Model of `np.percentile(xs, 99)` with the default linear interpolation:
sort, take the fractional rank `0.99 * (n - 1)` and interpolate between
the two neighbouring order statistics.  Only used on non-empty windows
(numpy raises on an empty array). -/
def percentile99 (xs : List ℚ) : ℚ :=
  let s := List.insertionSort (· ≤ ·) xs
  let rank : ℚ := (99 / 100 : ℚ) * ((xs.length : ℚ) - 1)
  let lo : ℕ := (⌊rank⌋).toNat
  let lov := s.getD lo 0
  let hiv := s.getD (lo + 1) lov
  lov + (rank - (lo : ℚ)) * (hiv - lov)

/-- Line 117 of `calculate_hr`: `thresh = np.percentile(ecg_sample, 99)*0.75`. -/
def hrThresh (w : List ℚ) : ℚ := percentile99 w * (3 / 4)

/-- Lines 118-121 of `calculate_hr`: scan `j in range(len(ecg_sample)-1)` and
record `j` when `ecg_sample[j] < thresh < ecg_sample[j+1]` (Python's chained
comparison: both comparisons strict). -/
def detectBeats (w : List ℚ) : List ℕ :=
  (List.range (w.length - 1)).filter
    (fun j => decide (w.getD j 0 < hrThresh w ∧ hrThresh w < w.getD (j + 1) 0))

/-- Line 122 of `calculate_hr`:
`hr_mean = 60*1/(np.mean(np.diff(beats)/sample_rate['ECG']))` with the
resampled rate `sample_rate['ECG'] = 100`; the NaN produced by the mean of
an empty difference array propagates as `none`. -/
def hrOfWindow (w : List ℚ) : Option ℚ :=
  let beats : List ℚ := (detectBeats w).map (fun b : ℕ => (b : ℚ))
  (npMean ((npDiff beats).map (fun d => d / 100))).map (fun m => 60 * 1 / m)

/-- Line 111 of `calculate_hr`: `ecg_processed = -np.diff(ecg_filt)`.
Line 112's `np.append(ecg_processed, 0)` allocates a fresh array whose
result is never assigned, so the array used downstream is exactly this one. -/
def ecgProcessed (f : List ℚ) : List ℚ := (npDiff f).map (fun d => -d)

/-- Line 113 of `calculate_hr`: `hr_win = window_length * sample_rate['ECG']`
with the resampled rate 100. -/
def hrWin (wl : ℕ) : ℕ := wl * 100

/-- Line 115 of `calculate_hr`: the window start offsets
`range(0, len(ecg_processed)-hr_win, sample_rate['ECG']*calc_every)`. -/
def hrWindowStarts (procLen wl ce : ℕ) : List ℕ :=
  pyRange (procLen - hrWin wl) (100 * ce)

/-- Line 116 of `calculate_hr`: `ecg_sample = ecg_processed[i:i+hr_win]`. -/
def hrWindow (proc : List ℚ) (wl i : ℕ) : List ℚ := (proc.drop i).take (hrWin wl)

/-- Line 124 of `calculate_hr`: the emitted row is indexed by
`ecg.index[i+hr_win]`. -/
def hrEmitIdx (wl i : ℕ) : ℕ := i + hrWin wl

/-- Timestamp of sample `k` of the 100 Hz resampled ECG series, in seconds
from the recording start `t0`. -/
def ecgTime (t0 : ℚ) (k : ℕ) : ℚ := t0 + (k : ℚ) / 100

/-- Line 133 of `calculate_rr`: `rr_win = window_length * sample_rate['Accelerometer_X']`. -/
def rrWin (wl accRate : ℕ) : ℕ := wl * accRate

/-- Line 135 of `calculate_rr`: the window start offsets
`range(0, len(acc_tot)-rr_win, sample_rate['ECG']*calc_every)` — note the
stride uses the ECG rate while the window length uses the accelerometer rate. -/
def rrWindowStarts (accLen ecgRate accRate wl ce : ℕ) : List ℕ :=
  pyRange (accLen - rrWin wl accRate) (ecgRate * ce)

/-- Line 136 of `calculate_rr`: the windowed slice `acc_tot[i:i+rr_win]`. -/
def rrWindow (acc : List ℚ) (wl accRate i : ℕ) : List ℚ :=
  (acc.drop i).take (rrWin wl accRate)

/-- The error kind of §7 raised for invalid filter cutoffs. -/
structure ConfigurationError : Type

/-- A designed band-pass filter: the order together with the two cutoffs
normalized to the Nyquist frequency (§4.1: "a digital filter description
(coefficients) ... normalized to the Nyquist frequency"). -/
structure FilterDesign : Type where
  order : ℕ
  lowN : ℚ
  highN : ℚ

/-- Modelled from the spec: the body of `scipy.signal.butter` is not part
of this repository; §4.1 specifies that the design fails with a
`ConfigurationError` when `low_cut_hz >= high_cut_hz` or either bound is at
or above the Nyquist frequency — in Nyquist-normalized units, when
`lowN >= highN` or either normalized cutoff is `>= 1`. -/
def designBandpass (order : ℕ) (lowN highN : ℚ) :
    Except ConfigurationError FilterDesign :=
  if highN ≤ lowN ∨ 1 ≤ lowN ∨ 1 ≤ highN then Except.error ⟨⟩
  else Except.ok ⟨order, lowN, highN⟩

/-- Lines 79-83 of `butter_bandpass`: `nyq = 0.5 * fs`, `low = lowcut / nyq`,
`high = highcut / nyq`, then design the band-pass filter. -/
def butter_bandpass (lowcut highcut fs : ℚ) (order : ℕ) :
    Except ConfigurationError FilterDesign :=
  let nyq := (1 / 2 : ℚ) * fs
  let low := lowcut / nyq
  let high := highcut / nyq
  designBandpass order low high

/-- Modelled from the spec: the body of `scipy.signal.lfilter` is not part
of this repository; §4.1 specifies "causal (non-zero-phase) filtering
equivalent to a direct-form linear recursive filter, preserving array
length":  `a[0] * y[n] = sum b[k] * x[n-k] - sum a[k] * y[n-k]`, with
terms reaching before the start of the data dropped (zero initial state).
`lfilterAux b a x n` is the list of the first `n` outputs. -/
def lfilterAux (b a x : List ℚ) : ℕ → List ℚ
  | 0 => []
  | n + 1 =>
    let prev := lfilterAux b a x n
    let bsum := ((List.range b.length).map
      (fun k => if k ≤ n then b.getD k 0 * x.getD (n - k) 0 else 0)).sum
    let asum := ((List.range a.length).map
      (fun k => if 1 ≤ k ∧ k ≤ n then a.getD k 0 * prev.getD (n - k) 0 else 0)).sum
    prev ++ [(bsum - asum) / a.getD 0 0]

/-- Modelled from the spec: `apply(data, filter)` of §4.1 /
`signal.lfilter(b, a, data)` of line 89, one output per input sample. -/
def lfilter (b a x : List ℚ) : List ℚ := lfilterAux b a x x.length

/-- Model of `np.fft.rfft`: the one-sided discrete Fourier transform of a real
signal, bins `k = 0 .. n/2` with
`X[k] = sum over n of sig[n] * exp(-2*pi*i*k*n/N)`. -/
noncomputable def rfft (sig : List ℝ) : List ℂ :=
  (List.range (sig.length / 2 + 1)).map (fun k : ℕ =>
    ((List.range sig.length).map (fun n : ℕ =>
      ((sig.getD n 0 : ℝ) : ℂ) *
        Complex.exp (-(2 * (Real.pi : ℂ) * Complex.I * (k : ℂ) * (n : ℂ)) /
          (sig.length : ℂ)))).sum)

/-- Model of `np.absolute(np.fft.rfft(sig))`: the one-sided amplitude spectrum. -/
noncomputable def rfftAbs (sig : List ℝ) : List ℝ :=
  (rfft sig).map Complex.abs

/-- Model of `np.fft.rfftfreq(n, 1.0/rate)`: bin `k` sits at frequency `k * rate / n`. -/
noncomputable def rfftfreq (n : ℕ) (rate : ℝ) : List ℝ :=
  (List.range (n / 2 + 1)).map (fun k : ℕ => (k : ℝ) * rate / (n : ℝ))

/-- Accumulator loop of `np.argmax`: scan the remaining values keeping the
current best index/value pair, replacing it only on a strictly larger
value (so the first occurrence of the maximum wins, as in numpy). -/
noncomputable def argmaxAux (i bi : ℕ) (bv : ℝ) : List ℝ → ℕ × ℝ
  | [] => (bi, bv)
  | v :: rest =>
    if bv < v then argmaxAux (i + 1) i v rest else argmaxAux (i + 1) bi bv rest

/-- Model of `np.argmax`: index of the first occurrence of the maximum.  (numpy
raises on an empty array; the `0` returned here for `[]` is never used at
the call sites, which pass non-empty spectra.) -/
noncomputable def npArgmax : List ℝ → ℕ
  | [] => 0
  | v :: rest => (argmaxAux 1 0 v rest).1

/-- Model of `np.max` of a non-empty array. -/
noncomputable def npMax : List ℝ → ℝ
  | [] => 0
  | v :: rest => rest.foldl max v

/-- Lines 93-99 of `spectrum`: amplitudes scaled by `1/1000`, the frequency
grid, the peak frequency `np.argmax(np.absolute(mag)) * freq[1]` and the
scaled peak amplitude. -/
noncomputable def spectrum (sig : List ℝ) (rate : ℝ) :
    List ℝ × List ℝ × ℝ × ℝ :=
  let mag := rfftAbs sig
  let freq := rfftfreq sig.length rate
  let peakf := (npArgmax mag : ℝ) * freq.getD 1 0
  let peakv := npMax mag
  (mag.map (fun v => v / 1000), freq, peakf, peakv / 1000)

/-- The peak frequency as the specification sentence of claim C3 words it
(comparison definition written from the spec's words, not from the code):
the index of the maximum of the one-sided amplitude spectrum **with the DC
bin (index 0) excluded from the maximization**, times the frequency
resolution. -/
noncomputable def specPeakFreq (sig : List ℝ) (rate : ℝ) : ℝ :=
  ((npArgmax ((rfftAbs sig).drop 1) + 1 : ℕ) : ℝ) *
    (rfftfreq sig.length rate).getD 1 0

/-- The body-position labels of the `Pos` enum (lines 36-43). -/
inductive Pos : Type
  | SUPINE
  | PRONE
  | TILT
  | UPRIGHT
  | LEFT_SIDE
  | RIGHT_SIDE
deriving DecidableEq

/-- The ordinal `value` of each `Pos` label (lines 38-43). -/
def Pos.value : Pos → ℕ
  | .SUPINE => 0
  | .PRONE => 1
  | .TILT => 2
  | .UPRIGHT => 3
  | .LEFT_SIDE => 4
  | .RIGHT_SIDE => 5

/-- Model of `np.clip(v, lo, hi)` = `minimum(hi, maximum(lo, v))`. -/
noncomputable def npClip (v lo hi : ℝ) : ℝ := min hi (max lo v)

/-- Lines 151-181 of `body_pos_and_angles` for one sample: clip each axis to
`[-1, 1]`, compute the tilt angle `theta = arcsin(x)*180/pi` and the
rotation angle `phi = sign(arcsin(-y))*arccos(-z)*180/pi`, then run the
decision tree.  The NaN angles appended for the left/right-side branch
(line 163) and for `x > 0.71` (line 176) are modelled as `none`.  Result:
`(position, tilt angle or none, rotation angle or none)`. -/
noncomputable def bodyPosSample (x y z : ℝ) : Pos × Option ℝ × Option ℝ :=
  let ax := npClip x (-1) 1
  let ay := npClip y (-1) 1
  let az := npClip z (-1) 1
  let theta := Real.arcsin ax * 180 / Real.pi
  let phi := Real.sign (Real.arcsin (-ay)) * Real.arccos (-az) * 180 / Real.pi
  let position : Pos :=
    if |ay| > 0.5 then
      (if ay < 0 then Pos.LEFT_SIDE else Pos.RIGHT_SIDE)
    else if az > ax ∧ az > ay then Pos.PRONE
    else if az < -0.966 then Pos.SUPINE
    else if ax > 0.966 then Pos.UPRIGHT
    else Pos.TILT
  let thetaOpt : Option ℝ := if |ay| > 0.5 then none else some theta
  let phiOpt : Option ℝ := if ax > 0.71 then none else some phi
  (position, thetaOpt, phiOpt)

/-! ## General lemmas about the embedded primitives -/

theorem mem_pyRange {stop step i : ℕ} :
    i ∈ pyRange stop step ↔ step ∣ i ∧ i < stop := by
  simp only [pyRange, List.mem_filter, List.mem_range, beq_iff_eq]
  rw [Nat.dvd_iff_mod_eq_zero]
  tauto

theorem mem_pyRange_lt {stop step i : ℕ} (h : i ∈ pyRange stop step) :
    i < stop := by
  simp only [pyRange, List.mem_filter, List.mem_range] at h
  exact h.1

theorem sum_range_map_sub (g : ℕ → ℚ) (n : ℕ) :
    ((List.range n).map (fun k => g (k + 1) - g k)).sum = g n - g 0 := by
  induction n with
  | zero => simp
  | succ m ih =>
    simp only [List.range_succ, List.map_append, List.sum_append, List.map_cons,
      List.map_nil, List.sum_cons, List.sum_nil, ih]
    ring

theorem npDiff_sum (xs : List ℚ) :
    (npDiff xs).sum = xs.getD (xs.length - 1) 0 - xs.getD 0 0 := by
  simpa [npDiff] using sum_range_map_sub (fun k => xs.getD k 0) (xs.length - 1)

theorem detectBeats_sorted (w : List ℚ) : (detectBeats w).Pairwise (· < ·) :=
  (List.pairwise_lt_range _).filter _

theorem detectBeats_first_lt_last {w : List ℚ} (h2 : 2 ≤ (detectBeats w).length) :
    (detectBeats w).getD 0 0 < (detectBeats w).getD ((detectBeats w).length - 1) 0 := by
  have hp := detectBeats_sorted w
  rw [List.pairwise_iff_get] at hp
  have h0 : 0 < (detectBeats w).length := by omega
  have h1 : (detectBeats w).length - 1 < (detectBeats w).length := by omega
  have hlt := hp ⟨0, h0⟩ ⟨(detectBeats w).length - 1, h1⟩ (by simp [Fin.lt_def]; omega)
  rw [List.getD_eq_getElem _ _ h0, List.getD_eq_getElem _ _ h1]
  simpa using hlt

theorem getD_map_ratCast (l : List ℕ) (k : ℕ) (hk : k < l.length) :
    (l.map (fun b : ℕ => (b : ℚ))).getD k 0 = ((l.getD k 0 : ℕ) : ℚ) := by
  have h2 : k < (l.map (fun b : ℕ => (b : ℚ))).length := by
    rw [List.length_map]; exact hk
  rw [List.getD_eq_getElem (l.map (fun b : ℕ => (b : ℚ))) 0 h2,
    List.getD_eq_getElem l 0 hk, List.getElem_map]

/-! ## Claims -/

/-- C1, amended: in every window, an index `j` is recorded as a beat exactly
when `value[j] < threshold` and `threshold < value[j+1]` with **both**
comparisons strict (Python's chained `ecg_sample[j] < thresh < ecg_sample[j+1]`),
where `threshold = 0.75 * (99th percentile of the window)`. -/
theorem claim1_beats_iff (w : List ℚ) (j : ℕ) :
    j ∈ detectBeats w ↔
      j + 1 < w.length ∧ w.getD j 0 < hrThresh w ∧ hrThresh w < w.getD (j + 1) 0 := by
  simp only [detectBeats, List.mem_filter, List.mem_range, decide_eq_true_eq]
  constructor
  · rintro ⟨h1, h2⟩
    exact ⟨by omega, h2⟩
  · rintro ⟨h1, h2⟩
    exact ⟨by omega, h2⟩

/-- C1, counterexample to the claim as stated: in the window
`[0, 3, 0, 4, 4]` the 99th percentile is `4`, so the threshold is exactly
`3`; at `j = 0` the window satisfies `value[0] = 0 < 3 ≤ 3 = value[1]`
(the claim's upward crossing with `threshold ≤ value[j+1]`), yet the code
records no beat at index `0` because its second comparison is strict. -/
theorem claim1_counterexample :
    ¬ (0 ∈ detectBeats [0, 3, 0, 4, 4] ↔
        ([0, 3, 0, 4, 4] : List ℚ).getD 0 0 < hrThresh [0, 3, 0, 4, 4] ∧
          hrThresh [0, 3, 0, 4, 4] ≤ ([0, 3, 0, 4, 4] : List ℚ).getD 1 0) := by
  have ht : hrThresh [0, 3, 0, 4, 4] = 3 := by
    norm_num [hrThresh, percentile99, List.insertionSort, List.orderedInsert,
      (show Int.toNat 3 = 3 from rfl)]
  norm_num [detectBeats, List.range_succ, ht]

/-- C6: the differentiation step `ecg_processed = -np.diff(ecg_filt)`
produces `processed[i] = -(filtered[i+1] - filtered[i])` for every index of
the filtered array except the last, and the processed array is exactly one
element shorter than the filtered array.  (Line 112's `np.append` result is
discarded, so `ecgProcessed` is the array used downstream — see
`hrWindowStarts`, which measures it.) -/
theorem claim6_diff_step (f : List ℚ) :
    (ecgProcessed f).length = f.length - 1 ∧
      ∀ i, i + 1 < f.length →
        (ecgProcessed f).getD i 0 = -(f.getD (i + 1) 0 - f.getD i 0) := by
  have hlen : (ecgProcessed f).length = f.length - 1 := by
    simp [ecgProcessed, npDiff]
  refine ⟨hlen, fun i hi => ?_⟩
  have hlt : i < (ecgProcessed f).length := by omega
  rw [List.getD_eq_getElem _ _ hlt]
  simp [ecgProcessed, npDiff]

/-- Witness for C6 at the filtered array `[1, 3]` and index `0`. -/
theorem claim6_witness :
    ((ecgProcessed [1, 3]).length = ([1, 3] : List ℚ).length - 1) ∧
      0 + 1 < ([1, 3] : List ℚ).length ∧
      (ecgProcessed [1, 3]).getD 0 0 =
        -(([1, 3] : List ℚ).getD (0 + 1) 0 - ([1, 3] : List ℚ).getD 0 0) :=
  ⟨(claim6_diff_step [1, 3]).1, by norm_num,
    (claim6_diff_step [1, 3]).2 0 (by norm_num)⟩

/-- C5: the respiratory-rate window start offsets are exactly the multiples
of `calc_every * (ECG sample rate)` below `len(acc_tot) - rr_win` — the
stride is measured in ECG-rate samples — while every selected window has
length `window_length * (accelerometer sample rate)`. -/
theorem claim5_rr_stride (accLen ecgRate accRate wl ce : ℕ)
    (hstep : 0 < ecgRate * ce) :
    (∀ i, i ∈ rrWindowStarts accLen ecgRate accRate wl ce ↔
        (ecgRate * ce) ∣ i ∧ i < accLen - wl * accRate) ∧
      ∀ (acc : List ℚ) (i : ℕ), acc.length = accLen →
        i ∈ rrWindowStarts accLen ecgRate accRate wl ce →
        (rrWindow acc wl accRate i).length = wl * accRate := by
  constructor
  · intro i
    simpa [rrWindowStarts, rrWin] using mem_pyRange (i := i)
  · intro acc i hlen hi
    have hlt : i < accLen - wl * accRate := by
      simpa [rrWin] using mem_pyRange_lt hi
    simp only [rrWindow, rrWin, List.length_take, List.length_drop, hlen]
    omega

/-- Witness for C5: with `accLen = 10`, `ecgRate = 2`, `accRate = 3`,
`window_length = 1`, `calc_every = 1`, the starts are the even offsets below
`7` and each window has `3` samples. -/
theorem claim5_witness :
    0 < 2 * 1 ∧
      ((∀ i, i ∈ rrWindowStarts 10 2 3 1 1 ↔ (2 * 1) ∣ i ∧ i < 10 - 1 * 3) ∧
        ∀ (acc : List ℚ) (i : ℕ), acc.length = 10 →
          i ∈ rrWindowStarts 10 2 3 1 1 →
          (rrWindow acc 1 3 i).length = 1 * 3) :=
  ⟨by norm_num, claim5_rr_stride 10 2 3 1 1 (by norm_num)⟩

/-- C2: a heart-rate window starting at processed offset `i` emits its
value at ECG index `i + window_length*100`, a valid index of the resampled
series; the window consists exactly of the negated differences of the
filtered ECG samples `i .. i + window_length*100`, so the emitted index is
the last ECG sample entering the window; and its timestamp minus
`window_length` seconds is the timestamp of the window's first sample (the
coverage invariant of §3). -/
theorem claim2_emit_timestamp (f : List ℚ) (t0 : ℚ) (wl ce i : ℕ)
    (h : i ∈ hrWindowStarts (ecgProcessed f).length wl ce) :
    hrEmitIdx wl i = i + wl * 100 ∧
      hrEmitIdx wl i < f.length ∧
      hrWindow (ecgProcessed f) wl i =
        (List.range (hrWin wl)).map
          (fun k => -(f.getD (i + k + 1) 0 - f.getD (i + k) 0)) ∧
      ecgTime t0 (hrEmitIdx wl i) - (wl : ℚ) = ecgTime t0 i := by
  have hplen : (ecgProcessed f).length = f.length - 1 := by
    simp [ecgProcessed, npDiff]
  have hi : i < (ecgProcessed f).length - hrWin wl := by
    simpa [hrWindowStarts] using mem_pyRange_lt h
  refine ⟨rfl, ?_, ?_, ?_⟩
  · simp only [hrEmitIdx]
    omega
  · apply List.ext_getElem
    · simp only [hrWindow, List.length_take, List.length_drop,
        List.length_map, List.length_range]
      omega
    · intro k h1 h2
      simp only [hrWindow]
      rw [List.getElem_take, List.getElem_drop]
      simp only [ecgProcessed, npDiff, List.getElem_map, List.getElem_range]
  · simp only [ecgTime, hrEmitIdx, hrWin]
    push_cast
    ring

/-- Witness for C2: the all-zero filtered series of `102` samples with
`window_length = 1`, `calc_every = 1` has the single window start `i = 0`,
emitting at ECG index `100`. -/
theorem claim2_witness :
    0 ∈ hrWindowStarts (ecgProcessed (List.replicate 102 (0 : ℚ))).length 1 1 ∧
      (hrEmitIdx 1 0 = 0 + 1 * 100 ∧
        hrEmitIdx 1 0 < (List.replicate 102 (0 : ℚ)).length ∧
        hrWindow (ecgProcessed (List.replicate 102 (0 : ℚ))) 1 0 =
          (List.range (hrWin 1)).map
            (fun k => -((List.replicate 102 (0 : ℚ)).getD (0 + k + 1) 0 -
              (List.replicate 102 (0 : ℚ)).getD (0 + k) 0)) ∧
        ecgTime 0 (hrEmitIdx 1 0) - ((1 : ℕ) : ℚ) = ecgTime 0 0) :=
  have hmem :
      0 ∈ hrWindowStarts (ecgProcessed (List.replicate 102 (0 : ℚ))).length 1 1 := by
    simp [hrWindowStarts, hrWin, pyRange, ecgProcessed, npDiff,
      List.length_replicate]
  ⟨hmem, claim2_emit_timestamp (List.replicate 102 (0 : ℚ)) 0 1 1 0 hmem⟩

/-- C4: a window with fewer than two detected beats yields a missing HR
value (`none`, modelling the NaN from the mean of an empty difference
array) rather than raising; a window with `n ≥ 2` beats yields
`HR = 60 / m` where `m = ((last beat - first beat) / (n-1)) / 100` is the
mean inter-beat interval in seconds, and that interval is strictly
positive, so no division by zero occurs. -/
theorem claim4_hr_edge (w : List ℚ) :
    (hrOfWindow w =
        if 2 ≤ (detectBeats w).length then
          some (60 /
            ((((detectBeats w).getD ((detectBeats w).length - 1) 0 : ℚ) -
                ((detectBeats w).getD 0 0 : ℚ)) /
              (((detectBeats w).length : ℚ) - 1) / 100))
        else none) ∧
      (2 ≤ (detectBeats w).length →
        0 < (((detectBeats w).getD ((detectBeats w).length - 1) 0 : ℚ) -
              ((detectBeats w).getD 0 0 : ℚ)) /
            (((detectBeats w).length : ℚ) - 1) / 100) := by
  by_cases h2 : 2 ≤ (detectBeats w).length
  · have hfl := detectBeats_first_lt_last h2
    have hpos :
        0 < (((detectBeats w).getD ((detectBeats w).length - 1) 0 : ℚ) -
              ((detectBeats w).getD 0 0 : ℚ)) /
            (((detectBeats w).length : ℚ) - 1) / 100 := by
      apply div_pos (div_pos _ _) (by norm_num)
      · rw [sub_pos]
        exact_mod_cast hfl
      · rw [sub_pos]
        exact_mod_cast h2
    refine ⟨?_, fun _ => hpos⟩
    rw [if_pos h2]
    simp only [hrOfWindow]
    have hxs : ((detectBeats w).map (fun b : ℕ => (b : ℚ))).length =
        (detectBeats w).length := List.length_map _ _
    have hdlen : (npDiff ((detectBeats w).map (fun b : ℕ => (b : ℚ)))).length =
        (detectBeats w).length - 1 := by
      simp [npDiff, hxs]
    have hne : ¬ ((npDiff ((detectBeats w).map (fun b : ℕ => (b : ℚ)))).map
        (fun d => d / 100)).length = 0 := by
      rw [List.length_map, hdlen]
      omega
    rw [npMean, if_neg hne, Option.map_some']
    congr 1
    have hsumgen : ∀ l : List ℚ, (l.map (fun d => d / 100)).sum = l.sum / 100 := by
      intro l
      induction l with
      | nil => simp
      | cons hd tl ih =>
        simp only [List.map_cons, List.sum_cons, ih]
        ring
    have hsum : ((npDiff ((detectBeats w).map (fun b : ℕ => (b : ℚ)))).map
        (fun d => d / 100)).sum =
        (npDiff ((detectBeats w).map (fun b : ℕ => (b : ℚ)))).sum / 100 :=
      hsumgen _
    have hts : (npDiff ((detectBeats w).map (fun b : ℕ => (b : ℚ)))).sum =
        (((detectBeats w).getD ((detectBeats w).length - 1) 0 : ℚ) -
          ((detectBeats w).getD 0 0 : ℚ)) := by
      rw [npDiff_sum, hxs,
        getD_map_ratCast _ _ (by omega), getD_map_ratCast _ _ (by omega)]
    rw [hsum, hts, List.length_map, hdlen]
    have hcast : (((detectBeats w).length - 1 : ℕ) : ℚ) =
        ((detectBeats w).length : ℚ) - 1 := by
      have : 1 ≤ (detectBeats w).length := by omega
      push_cast [this]
      ring
    rw [hcast]
    ring
  · refine ⟨?_, fun hc => absurd hc h2⟩
    rw [if_neg h2]
    simp only [hrOfWindow]
    have hlen0 : ((npDiff ((detectBeats w).map (fun b : ℕ => (b : ℚ)))).map
        (fun d => d / 100)).length = 0 := by
      simp only [List.length_map, npDiff, List.length_range]
      omega
    rw [npMean, if_pos hlen0, Option.map_none']

/-- Witness for C4 at the window `[0, 1, 0, 1, 0]`: the threshold is
`0.75`, the beats are `[0, 2]`, and the mean inter-beat interval is
`2/100` seconds, strictly positive. -/
theorem claim4_witness :
    2 ≤ (detectBeats [0, 1, 0, 1, 0]).length ∧
      0 < (((detectBeats [0, 1, 0, 1, 0]).getD
              ((detectBeats [0, 1, 0, 1, 0]).length - 1) 0 : ℚ) -
            ((detectBeats [0, 1, 0, 1, 0]).getD 0 0 : ℚ)) /
          (((detectBeats [0, 1, 0, 1, 0]).length : ℚ) - 1) / 100 :=
  have hb : detectBeats [0, 1, 0, 1, 0] = [0, 2] := by
    have ht : hrThresh [0, 1, 0, 1, 0] = 3 / 4 := by
      norm_num [hrThresh, percentile99, List.insertionSort, List.orderedInsert,
        (show Int.toNat 3 = 3 from rfl)]
    norm_num [detectBeats, List.range_succ, ht]
  ⟨by rw [hb]; norm_num, (claim4_hr_edge [0, 1, 0, 1, 0]).2 (by rw [hb]; norm_num)⟩

theorem lfilterAux_length (b a x : List ℚ) : ∀ n, (lfilterAux b a x n).length = n := by
  intro n
  induction n with
  | zero => rfl
  | succ m ih => simp [lfilterAux, ih]

/-- C8: the band-pass design fails with a `ConfigurationError` exactly when
`lowcut >= highcut` or either cutoff is at or above the Nyquist frequency
`fs/2`; and applying the recursive filter preserves the input length. -/
theorem claim8_bandpass (lowcut highcut fs : ℚ) (order : ℕ) (hfs : 0 < fs) :
    ((butter_bandpass lowcut highcut fs order = Except.error ⟨⟩) ↔
        (highcut ≤ lowcut ∨ fs / 2 ≤ lowcut ∨ fs / 2 ≤ highcut)) ∧
      ∀ b a x : List ℚ, (lfilter b a x).length = x.length := by
  have hnyq : (0 : ℚ) < (1 / 2) * fs := by positivity
  constructor
  · simp only [butter_bandpass, designBandpass]
    split_ifs with hc
    · constructor
      · intro _
        rcases hc with h | h | h
        · exact Or.inl ((div_le_div_iff_of_pos_right hnyq).mp h)
        · have := (one_le_div hnyq).mp h
          exact Or.inr (Or.inl (by linarith))
        · have := (one_le_div hnyq).mp h
          exact Or.inr (Or.inr (by linarith))
      · intro _
        rfl
    · constructor
      · intro h
        exact h.elim
      · intro h
        exfalso
        apply hc
        rcases h with h | h | h
        · exact Or.inl ((div_le_div_iff_of_pos_right hnyq).mpr h)
        · exact Or.inr (Or.inl ((one_le_div hnyq).mpr (by linarith)))
        · exact Or.inr (Or.inr ((one_le_div hnyq).mpr (by linarith)))
  · intro b a x
    exact lfilterAux_length b a x x.length

/-- Witness for C8 at the pipeline's own parameters: cutoffs `3` and
`33.3` Hz at a `100` Hz sample rate are valid (both below Nyquist `50`),
and filtering preserves length. -/
theorem claim8_witness :
    0 < (100 : ℚ) ∧
      (((butter_bandpass 3 (333 / 10) 100 2 = Except.error ⟨⟩) ↔
          ((333 / 10 : ℚ) ≤ 3 ∨ (100 : ℚ) / 2 ≤ 3 ∨ (100 : ℚ) / 2 ≤ 333 / 10)) ∧
        ∀ b a x : List ℚ, (lfilter b a x).length = x.length) :=
  ⟨by norm_num, claim8_bandpass 3 (333 / 10) 100 2 (by norm_num)⟩

/-- C7: the full decision tree of the body-position classifier on a clipped
sample `(x, y, z)` (each coordinate in `[-1, 1]`): if `|y| > 0.5` the
position is `LEFT_SIDE` when `y < 0` and `RIGHT_SIDE` otherwise with an
undefined tilt angle; otherwise the position is `PRONE` / `SUPINE` /
`UPRIGHT` / `TILT` by the nested thresholds with tilt angle
`arcsin(x)*180/pi`; and, independently, the rotation angle is undefined
when `x > 0.71` and `sign(arcsin(-y))*arccos(-z)*180/pi` otherwise. -/
theorem claim7_body_pos (x y z : ℝ)
    (hx1 : -1 ≤ x) (hx2 : x ≤ 1) (hy1 : -1 ≤ y) (hy2 : y ≤ 1)
    (hz1 : -1 ≤ z) (hz2 : z ≤ 1) :
    (|y| > 0.5 →
      (bodyPosSample x y z).1 = (if y < 0 then Pos.LEFT_SIDE else Pos.RIGHT_SIDE) ∧
        (bodyPosSample x y z).2.1 = none) ∧
    (¬ |y| > 0.5 →
      (bodyPosSample x y z).1 =
        (if z > x ∧ z > y then Pos.PRONE
         else if z < -0.966 then Pos.SUPINE
         else if x > 0.966 then Pos.UPRIGHT
         else Pos.TILT) ∧
        (bodyPosSample x y z).2.1 = some (Real.arcsin x * 180 / Real.pi)) ∧
    (x > 0.71 → (bodyPosSample x y z).2.2 = none) ∧
    (¬ x > 0.71 →
      (bodyPosSample x y z).2.2 =
        some (Real.sign (Real.arcsin (-y)) * Real.arccos (-z) * 180 / Real.pi)) := by
  have cx : npClip x (-1) 1 = x := by
    rw [npClip, max_eq_right hx1, min_eq_right hx2]
  have cy : npClip y (-1) 1 = y := by
    rw [npClip, max_eq_right hy1, min_eq_right hy2]
  have cz : npClip z (-1) 1 = z := by
    rw [npClip, max_eq_right hz1, min_eq_right hz2]
  simp only [bodyPosSample, cx, cy, cz]
  refine ⟨fun h => ?_, fun h => ?_, fun h => ?_, fun h => ?_⟩
  · rw [if_pos h, if_pos h]
    exact ⟨rfl, rfl⟩
  · rw [if_neg h, if_neg h]
    exact ⟨rfl, rfl⟩
  · rw [if_pos h]
  · rw [if_neg h]

/-- Witness for C7 at the clipped sample `(0, 0, 0)` (which classifies as
`TILT` with tilt angle `0` and rotation angle `0`). -/
theorem claim7_witness :
    (-1 ≤ (0 : ℝ) ∧ (0 : ℝ) ≤ 1) ∧
      ((|(0 : ℝ)| > 0.5 →
          (bodyPosSample 0 0 0).1 =
              (if (0 : ℝ) < 0 then Pos.LEFT_SIDE else Pos.RIGHT_SIDE) ∧
            (bodyPosSample 0 0 0).2.1 = none) ∧
        (¬ |(0 : ℝ)| > 0.5 →
          (bodyPosSample 0 0 0).1 =
              (if (0 : ℝ) > 0 ∧ (0 : ℝ) > 0 then Pos.PRONE
               else if (0 : ℝ) < -0.966 then Pos.SUPINE
               else if (0 : ℝ) > 0.966 then Pos.UPRIGHT
               else Pos.TILT) ∧
            (bodyPosSample 0 0 0).2.1 =
              some (Real.arcsin 0 * 180 / Real.pi)) ∧
        ((0 : ℝ) > 0.71 → (bodyPosSample 0 0 0).2.2 = none) ∧
        (¬ (0 : ℝ) > 0.71 →
          (bodyPosSample 0 0 0).2.2 =
            some (Real.sign (Real.arcsin (-0)) * Real.arccos (-0) * 180 / Real.pi))) :=
  ⟨⟨by norm_num, by norm_num⟩,
    claim7_body_pos 0 0 0 (by norm_num) (by norm_num) (by norm_num) (by norm_num)
      (by norm_num) (by norm_num)⟩

/-- C9: on arbitrary real input, each clipped coordinate lies in `[-1, 1]`
(so `arcsin`/`arccos` always receive in-domain arguments), and the
classifier totally assigns one of the six enumeration labels — it can
never fail on a numeric sample. -/
theorem claim9_classifier_total (x y z : ℝ) :
    (-1 ≤ npClip x (-1) 1 ∧ npClip x (-1) 1 ≤ 1) ∧
      (-1 ≤ npClip y (-1) 1 ∧ npClip y (-1) 1 ≤ 1) ∧
      (-1 ≤ npClip z (-1) 1 ∧ npClip z (-1) 1 ≤ 1) ∧
      ((bodyPosSample x y z).1 = Pos.SUPINE ∨ (bodyPosSample x y z).1 = Pos.PRONE ∨
        (bodyPosSample x y z).1 = Pos.TILT ∨ (bodyPosSample x y z).1 = Pos.UPRIGHT ∨
        (bodyPosSample x y z).1 = Pos.LEFT_SIDE ∨
        (bodyPosSample x y z).1 = Pos.RIGHT_SIDE) := by
  have hb : ∀ v : ℝ, -1 ≤ npClip v (-1) 1 ∧ npClip v (-1) 1 ≤ 1 := fun v =>
    ⟨le_min (by norm_num) (le_max_left _ _), min_le_left _ _⟩
  refine ⟨hb x, hb y, hb z, ?_⟩
  simp only [bodyPosSample]
  split_ifs <;> simp

/-- C10: for a clipped sample with `y = 0` and `x ≤ 0.71`, the reported
rotation angle is exactly `0` regardless of `z`, because
`sign(arcsin(-0)) = 0` multiplies the whole `arccos` term. -/
theorem claim10_rotation_zero (x z : ℝ) (hx1 : -1 ≤ x) (hx2 : x ≤ 0.71)
    (hz1 : -1 ≤ z) (hz2 : z ≤ 1) :
    (bodyPosSample x 0 z).2.2 = some 0 := by
  have cx : npClip x (-1) 1 = x := by
    rw [npClip, max_eq_right hx1, min_eq_right (le_trans hx2 (by norm_num))]
  have cy : npClip 0 (-1) 1 = 0 := by
    rw [npClip]
    norm_num
  have cz : npClip z (-1) 1 = z := by
    rw [npClip, max_eq_right hz1, min_eq_right hz2]
  simp only [bodyPosSample, cx, cy, cz]
  rw [if_neg (not_lt.mpr hx2)]
  simp [Real.arcsin_zero, Real.sign_zero]

/-- Witness for C10 at `x = 0`, `z = 1/2`. -/
theorem claim10_witness :
    (-1 ≤ (0 : ℝ) ∧ (0 : ℝ) ≤ 0.71 ∧ -1 ≤ (1 / 2 : ℝ) ∧ (1 / 2 : ℝ) ≤ 1) ∧
      (bodyPosSample 0 0 (1 / 2)).2.2 = some 0 :=
  ⟨⟨by norm_num, by norm_num, by norm_num, by norm_num⟩,
    claim10_rotation_zero 0 (1 / 2) (by norm_num) (by norm_num) (by norm_num)
      (by norm_num)⟩

theorem argmaxAux_le_snd : ∀ (rest : List ℝ) (i bi : ℕ) (bv : ℝ),
    bv ≤ (argmaxAux i bi bv rest).2 := by
  intro rest
  induction rest with
  | nil => intro i bi bv; simp [argmaxAux]
  | cons v tl ih =>
    intro i bi bv
    simp only [argmaxAux]
    split_ifs with h
    · exact le_trans (le_of_lt h) (ih (i + 1) i v)
    · exact ih (i + 1) bi bv

theorem argmaxAux_mem_le : ∀ (rest : List ℝ) (i bi : ℕ) (bv u : ℝ),
    u ∈ rest → u ≤ (argmaxAux i bi bv rest).2 := by
  intro rest
  induction rest with
  | nil => intro i bi bv u hu; cases hu
  | cons v tl ih =>
    intro i bi bv u hu
    simp only [argmaxAux]
    rcases List.mem_cons.mp hu with rfl | hmem
    · split_ifs with h
      · exact argmaxAux_le_snd tl (i + 1) i u
      · exact le_trans (not_lt.mp h) (argmaxAux_le_snd tl (i + 1) bi bv)
    · split_ifs with h
      · exact ih (i + 1) i v u hmem
      · exact ih (i + 1) bi bv u hmem

theorem argmaxAux_index : ∀ (rest : List ℝ) (i bi : ℕ) (bv : ℝ),
    ((argmaxAux i bi bv rest).1 = bi ∧ (argmaxAux i bi bv rest).2 = bv) ∨
      ∃ k, k < rest.length ∧ (argmaxAux i bi bv rest).1 = i + k ∧
        (argmaxAux i bi bv rest).2 = rest.getD k 0 := by
  intro rest
  induction rest with
  | nil => intro i bi bv; exact Or.inl ⟨rfl, rfl⟩
  | cons v tl ih =>
    intro i bi bv
    simp only [argmaxAux]
    split_ifs with h
    · rcases ih (i + 1) i v with ⟨h1, h2⟩ | ⟨k, hk, h1, h2⟩
      · refine Or.inr ⟨0, by simp, ?_, ?_⟩
        · rw [h1]; omega
        · rw [h2]; simp
      · refine Or.inr ⟨k + 1, by simpa using Nat.succ_lt_succ hk, ?_, ?_⟩
        · rw [h1]; omega
        · rw [h2]; simp [List.getD_cons_succ]
    · rcases ih (i + 1) bi bv with hc | ⟨k, hk, h1, h2⟩
      · exact Or.inl hc
      · refine Or.inr ⟨k + 1, by simpa using Nat.succ_lt_succ hk, ?_, ?_⟩
        · rw [h1]; omega
        · rw [h2]; simp [List.getD_cons_succ]

theorem npArgmax_spec (xs : List ℝ) (hne : xs ≠ []) :
    npArgmax xs < xs.length ∧
      ∀ j, j < xs.length → xs.getD j 0 ≤ xs.getD (npArgmax xs) 0 := by
  cases xs with
  | nil => exact absurd rfl hne
  | cons v tl =>
    simp only [npArgmax]
    have hidx := argmaxAux_index tl 1 0 v
    have hval : (v :: tl).getD (argmaxAux 1 0 v tl).1 0 = (argmaxAux 1 0 v tl).2 := by
      rcases hidx with ⟨h1, h2⟩ | ⟨k, hk, h1, h2⟩
      · rw [h1, h2]; simp
      · rw [h1, h2, Nat.add_comm 1 k]
        simp [List.getD_cons_succ]
    constructor
    · rcases hidx with ⟨h1, _⟩ | ⟨k, hk, h1, _⟩
      · rw [h1]; simp
      · rw [h1]
        simp only [List.length_cons]
        omega
    · intro j hj
      rw [hval]
      cases j with
      | zero => simpa using argmaxAux_le_snd tl 1 0 v
      | succ m =>
        have hm : m < tl.length := by simpa using hj
        have hmem : tl.getD m 0 ∈ tl := by
          rw [List.getD_eq_getElem tl 0 hm]
          exact List.getElem_mem hm
        simpa [List.getD_cons_succ] using argmaxAux_mem_le tl 1 0 v _ hmem

theorem rfftAbs_length (sig : List ℝ) :
    (rfftAbs sig).length = sig.length / 2 + 1 := by
  simp [rfftAbs, rfft]

theorem rfft_pair : rfft [(1 : ℝ), 1] = [2, 0] := by
  rw [rfft]
  norm_num [List.range_succ]
  have harg : (-(2 * (Real.pi : ℂ) * Complex.I) / 2) =
      -((Real.pi : ℂ) * Complex.I) := by
    ring
  rw [harg, Complex.exp_neg, Complex.exp_pi_mul_I]
  norm_num

theorem rfftAbs_pair : rfftAbs [(1 : ℝ), 1] = [2, 0] := by
  rw [rfftAbs, rfft_pair]
  simp [Complex.abs_two]

/-- C3, amended: for every input of at least two samples, the reported
peak frequency is the index of the first maximum of the one-sided
amplitude spectrum taken over **all** bins — the DC bin included — times
the frequency resolution `rate / n`; the returned amplitudes are the raw
FFT magnitudes scaled by `1/1000`; and the selected index really attains
the maximum of the spectrum. -/
theorem claim3_spectrum_peak (sig : List ℝ) (rate : ℝ) (h2 : 2 ≤ sig.length) :
    (spectrum sig rate).2.2.1 =
        (npArgmax (rfftAbs sig) : ℝ) * (rate / (sig.length : ℝ)) ∧
      (spectrum sig rate).1 = (rfftAbs sig).map (fun v => v / 1000) ∧
      npArgmax (rfftAbs sig) < (rfftAbs sig).length ∧
      ∀ j, j < (rfftAbs sig).length →
        (rfftAbs sig).getD j 0 ≤ (rfftAbs sig).getD (npArgmax (rfftAbs sig)) 0 := by
  have hne : rfftAbs sig ≠ [] := by
    intro hnil
    have hl := rfftAbs_length sig
    rw [hnil] at hl
    simp at hl
  have hspec := npArgmax_spec (rfftAbs sig) hne
  have hfreq : (rfftfreq sig.length rate).getD 1 0 = rate / (sig.length : ℝ) := by
    have h1 : 1 < (rfftfreq sig.length rate).length := by
      simp only [rfftfreq, List.length_map, List.length_range]
      omega
    rw [List.getD_eq_getElem _ 0 h1]
    simp [rfftfreq]
  refine ⟨?_, rfl, hspec.1, hspec.2⟩
  simp only [spectrum, hfreq]

/-- C3, counterexample to the claim as stated: on the constant signal
`[1, 1]` (any positive rate, here `50`) the whole spectral energy sits in
the DC bin — the magnitudes are `[2, 0]` — so the code reports peak
frequency `0`, while the claim's DC-excluded maximization would report
bin `1`, i.e. `25`. -/
theorem claim3_counterexample :
    (spectrum [1, 1] 50).2.2.1 = 0 ∧ specPeakFreq [1, 1] 50 = 25 ∧
      (spectrum [1, 1] 50).2.2.1 ≠ specPeakFreq [1, 1] 50 := by
  have habs : rfftAbs [(1 : ℝ), 1] = [2, 0] := rfftAbs_pair
  have hfl : rfftfreq 2 50 = [0, 25] := by
    norm_num [rfftfreq, List.range_succ]
  have hargmax : npArgmax [(2 : ℝ), 0] = 0 := by
    norm_num [npArgmax, argmaxAux]
  have hargmax1 : npArgmax [(0 : ℝ)] = 0 := by
    norm_num [npArgmax, argmaxAux]
  refine ⟨?_, ?_, ?_⟩
  · simp only [spectrum, habs, hargmax]
    norm_num
  · simp only [specPeakFreq, habs]
    norm_num [hargmax1, hfl]
  · simp only [spectrum, specPeakFreq, habs, hargmax]
    norm_num [hargmax1, hfl]

/-- Witness for C3 (amended theorem) at the two-sample signal `[1, 1]`
with rate `50`. -/
theorem claim3_witness :
    2 ≤ ([(1 : ℝ), 1]).length ∧
      ((spectrum [(1 : ℝ), 1] 50).2.2.1 =
          (npArgmax (rfftAbs [(1 : ℝ), 1]) : ℝ) *
            (50 / (([(1 : ℝ), 1]).length : ℝ)) ∧
        (spectrum [(1 : ℝ), 1] 50).1 =
          (rfftAbs [(1 : ℝ), 1]).map (fun v => v / 1000) ∧
        npArgmax (rfftAbs [(1 : ℝ), 1]) < (rfftAbs [(1 : ℝ), 1]).length ∧
        ∀ j, j < (rfftAbs [(1 : ℝ), 1]).length →
          (rfftAbs [(1 : ℝ), 1]).getD j 0 ≤
            (rfftAbs [(1 : ℝ), 1]).getD (npArgmax (rfftAbs [(1 : ℝ), 1])) 0) :=
  ⟨by norm_num, claim3_spectrum_peak [(1 : ℝ), 1] 50 (by norm_num)⟩

end Repose

